import Mathlib

/-!
Shallow embedding of the Reflex realtime WebSocket server
(`ReflexRealtimeServer`): connection registry (`clients`), room index
(`rooms`), user-session index (`userSessions`), heartbeat timers, the
message router and the liveness sweep.  JavaScript `Map` is modelled as an
insertion-ordered association list, `Set` as an insertion-ordered
duplicate-free list; timestamps are naturals (milliseconds).
-/

namespace Realtime

/-- Insertion-ordered map, as JavaScript `Map`: an association list whose
`set` updates an existing key in place and appends a fresh key at the end. -/
abbrev OMap (α : Type) := List (String × α)

namespace OMap

def find? (m : OMap α) (k : String) : Option α :=
  match m with
  | [] => none
  | (k', v) :: rest => if k' = k then some v else find? rest k

def set (m : OMap α) (k : String) (v : α) : OMap α :=
  match m with
  | [] => [(k, v)]
  | (k', v') :: rest => if k' = k then (k', v) :: rest else (k', v') :: set rest k v

def del (m : OMap α) (k : String) : OMap α :=
  match m with
  | [] => []
  | (k', v') :: rest => if k' = k then rest else (k', v') :: del rest k

def keys (m : OMap α) : List String := m.map Prod.fst

def hasKey (m : OMap α) (k : String) : Bool := (find? m k).isSome

end OMap

/-- Insertion-ordered set, as JavaScript `Set`: duplicate-free list; `add`
appends a missing element at the end. -/
abbrev OSet := List String

def OSet.add (s : OSet) (x : String) : OSet :=
  if x ∈ s then s else s ++ [x]

/-- `client.ws.send` made explicit: the transport is open or not
(`wsOpen`, modelling `ws.readyState === WebSocket.OPEN`). -/
structure Client where
  userId : Option String
  sessionId : String
  connectedAt : Nat
  lastActivity : Nat
  subscriptions : OSet
  wsOpen : Bool
  deriving Repr, DecidableEq

/-- Outbound payload shapes actually built by the server. -/
inductive OutPayload where
  | stateSync (stateUpdates : String)
  | eventWrap (eventType : String) (eventPayload : String) (sourceClientId : String)
  | userJoin (clientId : String) (sessionId : String)
  | userLeave (clientId : String) (userId : Option String)
  | heartbeatAlive
  | heartbeatPing
  deriving Repr, DecidableEq

/-- Outbound `RealtimeMessage`. -/
structure OutMsg where
  type : String
  payload : OutPayload
  timestamp : Nat
  clientId : Option String
  deriving Repr, DecidableEq

/-- The fields the router destructures from the untyped inbound `payload`;
an absent field is `none` (`undefined`). -/
structure InPayload where
  stateUpdates : String := ""
  targetUsers : Option (List String) := none
  excludeSelf : Option Bool := none
  eventType : String := ""
  eventPayload : String := ""
  room : Option String := none
  subscriptions : Option (List String) := none
  userId : Option String := none
  rooms : Option (List String) := none
  deriving Repr, DecidableEq

/-- Inbound `RealtimeMessage`: the `type` field is an arbitrary string so
unknown tags can be expressed. -/
structure InMsg where
  type : String
  payload : InPayload
  deriving Repr, DecidableEq

/-- The seven type tags of the wire protocol. -/
def recognizedTags : List String :=
  ["STATE_SYNC", "EVENT_BROADCAST", "USER_JOIN", "USER_LEAVE", "HEARTBEAT",
   "SUBSCRIBE", "UNSUBSCRIBE"]

/-- JavaScript truthiness of a destructured optional string field
(`undefined` and `""` are falsy). -/
def strTruthy : Option String → Bool
  | none => false
  | some s => s ≠ ""

/-- Server state: `clients`, `rooms`, `userSessions` as in the class, plus
the set of connections whose per-connection heartbeat interval is still
scheduled (`startHeartbeat` registers it; nothing cancels it except the
tick noticing the connection is gone). -/
structure ServerState where
  clients : OMap Client
  rooms : OMap OSet
  userSessions : OMap OSet
  timers : List String
  deriving Repr, DecidableEq

def initialState : ServerState := ⟨[], [], [], []⟩

/-- A delivery event: `ws.send` succeeded on this connection with this
message. -/
abbrev Event := String × OutMsg

/-- `sendToClient` (no write error): silently does nothing unless the
client is registered and its transport open. -/
def sendToClient (s : ServerState) (clientId : String) (message : OutMsg) : List Event :=
  match OMap.find? s.clients clientId with
  | none => []
  | some client => if client.wsOpen then [(clientId, message)] else []

/-- `broadcastToAll`: every registered client except `excludeClientId`. -/
def broadcastToAll (s : ServerState) (message : OutMsg) (excludeClientId : Option String) :
    List Event :=
  s.clients.foldr
    (fun e acc =>
      (if excludeClientId = some e.1 then [] else sendToClient s e.1 message) ++ acc) []

/-- `broadcastToUser`: members of `userSessions.get(userId)` except
`excludeClientId`; no-op if the user is unknown. -/
def broadcastToUser (s : ServerState) (userId : String) (message : OutMsg)
    (excludeClientId : Option String) : List Event :=
  match OMap.find? s.userSessions userId with
  | none => []
  | some userClients =>
      userClients.foldr
        (fun cid acc =>
          (if excludeClientId = some cid then [] else sendToClient s cid message) ++ acc) []

/-- `broadcastToRoom`: members of `rooms.get(roomId)` except
`excludeClientId`; no-op if the room is unknown. -/
def broadcastToRoom (s : ServerState) (roomId : String) (message : OutMsg)
    (excludeClientId : Option String) : List Event :=
  match OMap.find? s.rooms roomId with
  | none => []
  | some room =>
      room.foldr
        (fun cid acc =>
          (if excludeClientId = some cid then [] else sendToClient s cid message) ++ acc) []

/-- `handleStateSync`: re-broadcasts `stateUpdates`; target users when the
list is present and non-empty, all clients otherwise; `excludeSelf`
defaults to `true`. -/
def handleStateSync (s : ServerState) (now : Nat) (clientId : String) (p : InPayload) :
    ServerState × List Event :=
  let excludeSelf := p.excludeSelf.getD true
  let broadcastMessage : OutMsg :=
    ⟨"STATE_SYNC", .stateSync p.stateUpdates, now, some clientId⟩
  match p.targetUsers with
  | some targetUsers =>
      if targetUsers.length > 0 then
        (s, targetUsers.foldr
          (fun userId acc =>
            broadcastToUser s userId broadcastMessage
              (if excludeSelf then some clientId else none) ++ acc) [])
      else
        (s, broadcastToAll s broadcastMessage (if excludeSelf then some clientId else none))
  | none =>
      (s, broadcastToAll s broadcastMessage (if excludeSelf then some clientId else none))

/-- `handleEventBroadcast`: wraps the event and sends it to the room (when
`room` is truthy) or to everyone, always excluding the sender. -/
def handleEventBroadcast (s : ServerState) (now : Nat) (clientId : String) (p : InPayload) :
    ServerState × List Event :=
  let broadcastMessage : OutMsg :=
    ⟨"EVENT_BROADCAST", .eventWrap p.eventType p.eventPayload clientId, now, some clientId⟩
  if strTruthy p.room then
    (s, broadcastToRoom s (p.room.getD "") broadcastMessage (some clientId))
  else
    (s, broadcastToAll s broadcastMessage (some clientId))

/-- The `if (!index.has(key)) index.set(key, new Set()); index.get(key).add(cid)`
pattern shared by the user-session and room joins. -/
def indexAdd (cid : String) (m : OMap OSet) (key : String) : OMap OSet :=
  OMap.set m key (OSet.add ((OMap.find? m key).getD []) cid)

/-- The mutations SUBSCRIBE performs on the client record itself: bind a
truthy `userId` and add each listed topic to the subscription set. -/
def subClient (client : Client) (p : InPayload) : Client :=
  let client := if strTruthy p.userId then { client with userId := p.userId } else client
  match p.subscriptions with
  | some subs => { client with subscriptions := subs.foldl OSet.add client.subscriptions }
  | none => client

/-- `handleSubscribe`: truthy `userId` is bound on the client and indexed
in `userSessions`; listed topics are added to the client's subscription
set; listed rooms each gain the client. -/
def handleSubscribe (s : ServerState) (clientId : String) (p : InPayload) : ServerState :=
  match OMap.find? s.clients clientId with
  | none => s
  | some client =>
      { s with
        clients := OMap.set s.clients clientId (subClient client p),
        userSessions :=
          if strTruthy p.userId then indexAdd clientId s.userSessions (p.userId.getD "")
          else s.userSessions,
        rooms :=
          match p.rooms with
          | some roomIds => roomIds.foldl (indexAdd clientId) s.rooms
          | none => s.rooms }

/-- `handleUnsubscribe`: listed topics are removed from the client's
subscription set; the client leaves each listed room, deleting a room that
becomes empty. -/
def handleUnsubscribe (s : ServerState) (clientId : String) (p : InPayload) : ServerState :=
  match OMap.find? s.clients clientId with
  | none => s
  | some client =>
      let client :=
        match p.subscriptions with
        | some subs => { client with subscriptions := subs.foldl List.erase client.subscriptions }
        | none => client
      let rooms :=
        match p.rooms with
        | some roomIds =>
            roomIds.foldl
              (fun rs roomId =>
                match OMap.find? rs roomId with
                | none => rs
                | some room =>
                    let room := room.erase clientId
                    if room = [] then OMap.del rs roomId else OMap.set rs roomId room)
              s.rooms
        | none => s.rooms
      { s with clients := OMap.set s.clients clientId client, rooms := rooms }

/-- `handleHeartbeat`: refreshes `lastActivity` and answers
`{status: "alive"}`. -/
def handleHeartbeat (s : ServerState) (now : Nat) (clientId : String) :
    ServerState × List Event :=
  match OMap.find? s.clients clientId with
  | none => (s, [])
  | some client =>
      let s := { s with clients := OMap.set s.clients clientId { client with lastActivity := now } }
      (s, sendToClient s clientId ⟨"HEARTBEAT", .heartbeatAlive, now, none⟩)

/-- `handleDisconnection`: removes the client from its bound user's
session set and from every room (deleting sets that become empty), removes
it from the registry and announces USER_LEAVE to everyone else.  The
heartbeat timer entry is left untouched, as in the source. -/
def handleDisconnection (s : ServerState) (now : Nat) (clientId : String) :
    ServerState × List Event :=
  match OMap.find? s.clients clientId with
  | none => (s, [])
  | some client =>
      let userSessions :=
        match client.userId with
        | some u =>
            match OMap.find? s.userSessions u with
            | none => s.userSessions
            | some userClients =>
                let userClients := userClients.erase clientId
                if userClients = [] then OMap.del s.userSessions u
                else OMap.set s.userSessions u userClients
        | none => s.userSessions
      let rooms :=
        s.rooms.filterMap
          (fun e =>
            let room := e.2.erase clientId
            if room = [] then none else some (e.1, room))
      let s' : ServerState :=
        { s with clients := OMap.del s.clients clientId,
                 rooms := rooms, userSessions := userSessions }
      (s', broadcastToAll s'
        ⟨"USER_LEAVE", .userLeave clientId client.userId, now, none⟩ (some clientId))

/-- `client.lastActivity = new Date()` on an inbound message. -/
def touchClient (s : ServerState) (clientId : String) (client : Client) (now : Nat) :
    ServerState :=
  { s with clients := OMap.set s.clients clientId { client with lastActivity := now } }

/-- `handleMessage`: ignores unregistered senders, refreshes
`lastActivity`, then dispatches on the type tag; an unrecognized tag only
logs a warning. -/
def handleMessage (s : ServerState) (now : Nat) (clientId : String) (message : InMsg) :
    ServerState × List Event :=
  match OMap.find? s.clients clientId with
  | none => (s, [])
  | some client =>
      let s := touchClient s clientId client now
      if message.type = "STATE_SYNC" then handleStateSync s now clientId message.payload
      else if message.type = "EVENT_BROADCAST" then
        handleEventBroadcast s now clientId message.payload
      else if message.type = "SUBSCRIBE" then (handleSubscribe s clientId message.payload, [])
      else if message.type = "UNSUBSCRIBE" then (handleUnsubscribe s clientId message.payload, [])
      else if message.type = "HEARTBEAT" then handleHeartbeat s now clientId
      else (s, [])

/-- The `ws.on("message")` callback: `JSON.parse` result is `none` on
malformed input, which is logged and dropped. -/
def onRawMessage (s : ServerState) (now : Nat) (clientId : String) (parsed : Option InMsg) :
    ServerState × List Event :=
  match parsed with
  | none => (s, [])
  | some message => handleMessage s now clientId message

/-- The `wss.on("connection")` callback: register the client, send it
USER_JOIN, start its heartbeat timer. -/
def connect (s : ServerState) (now : Nat) (clientId sessionId : String) (wsOpen : Bool) :
    ServerState × List Event :=
  let client : Client := ⟨none, sessionId, now, now, [], wsOpen⟩
  let s := { s with clients := OMap.set s.clients clientId client }
  let evs := sendToClient s clientId ⟨"USER_JOIN", .userJoin clientId sessionId, now, none⟩
  ({ s with timers := OSet.add s.timers clientId }, evs)

/-- One tick of the `startHeartbeat` interval: if the connection is gone
or its transport closed the interval clears itself, otherwise it pings. -/
def heartbeatTick (s : ServerState) (now : Nat) (clientId : String) :
    ServerState × List Event :=
  if clientId ∈ s.timers then
    match OMap.find? s.clients clientId with
    | none => ({ s with timers := s.timers.erase clientId }, [])
    | some client =>
        if client.wsOpen then
          (s, sendToClient s clientId ⟨"HEARTBEAT", .heartbeatPing, now, none⟩)
        else ({ s with timers := s.timers.erase clientId }, [])
  else (s, [])

/-- `sendToClient` with the write error made explicit: an unregistered or
closed transport is silently skipped; a throwing `ws.send` runs
`handleDisconnection`. -/
def sendToClientTry (s : ServerState) (now : Nat) (clientId : String) (message : OutMsg)
    (writeFails : Bool) : ServerState × List Event :=
  match OMap.find? s.clients clientId with
  | none => (s, [])
  | some client =>
      if client.wsOpen then
        if writeFails then handleDisconnection s now clientId else (s, [(clientId, message)])
      else (s, [])

/-- The 5-minute inactivity timeout in milliseconds. -/
def inactivityTimeout : Nat := 5 * 60 * 1000

/-- `cleanupInactiveClients`: walk the registry and disconnect every
client whose last activity is older than the timeout. -/
def cleanupInactiveClients (s : ServerState) (now : Nat) : ServerState × List Event :=
  s.clients.foldl
    (fun acc e =>
      if now - e.2.lastActivity > inactivityTimeout then
        let r := handleDisconnection acc.1 now e.1
        (r.1, acc.2 ++ r.2)
      else acc)
    (s, [])

/-- `generateClientId`: `client_${Date.now()}_${random base36 suffix}`,
with the JavaScript decimal rendering of the timestamp made explicit. -/
def digitChar (n : Nat) : Char :=
  match n with
  | 0 => '0' | 1 => '1' | 2 => '2' | 3 => '3' | 4 => '4'
  | 5 => '5' | 6 => '6' | 7 => '7' | 8 => '8' | 9 => '9'
  | _ => '*'

/-- Decimal digits, fuel-recursive so that it evaluates by kernel
reduction; the fuel is always sufficient at `n + 1`. -/
def natDigitsGo : Nat → Nat → List Char
  | 0, _ => []
  | fuel + 1, n =>
      if n < 10 then [digitChar n] else natDigitsGo fuel (n / 10) ++ [digitChar (n % 10)]

/-- Decimal digits of a natural number, most significant first (the
JavaScript `ToString` of an integer). -/
def natDigits (n : Nat) : List Char := natDigitsGo (n + 1) n

def generateClientId (now : Nat) (rand : String) : String :=
  ⟨"client_".data ++ natDigits now ++ '_' :: rand.data⟩

/-- The identifiers returned by a sequence of `register` calls, given the
timestamp and random suffix each call observes. -/
def registerIds (calls : List (Nat × String)) : List String :=
  calls.map (fun p => generateClientId p.1 p.2)

/-- The externally triggered operations of the server. -/
inductive Op where
  | connect (now : Nat) (clientId sessionId : String) (wsOpen : Bool)
  | message (now : Nat) (clientId : String) (parsed : Option InMsg)
  | disconnect (now : Nat) (clientId : String)
  | sendTry (now : Nat) (clientId : String) (message : OutMsg) (writeFails : Bool)
  | tick (now : Nat) (clientId : String)
  | sweep (now : Nat)
  deriving Repr

def applyOp (s : ServerState) : Op → ServerState × List Event
  | .connect now cid sid wsOpen => connect s now cid sid wsOpen
  | .message now cid parsed => onRawMessage s now cid parsed
  | .disconnect now cid => handleDisconnection s now cid
  | .sendTry now cid msg wf => sendToClientTry s now cid msg wf
  | .tick now cid => heartbeatTick s now cid
  | .sweep now => cleanupInactiveClients s now

/-- The state after a whole trace of operations from the empty server. -/
def run (s : ServerState) (ops : List Op) : ServerState :=
  ops.foldl (fun s op => (applyOp s op).1) s

/-- `membersOf(room)`: the member set of a room, empty when absent. -/
def membersOf (s : ServerState) (roomId : String) : OSet :=
  (OMap.find? s.rooms roomId).getD []

/-- `connectionsOf(user)`: the session set of a user, empty when absent. -/
def connectionsOf (s : ServerState) (userId : String) : OSet :=
  (OMap.find? s.userSessions userId).getD []

/-- All registered connection identifiers, in registry order. -/
def clientIds (s : ServerState) : List String := OMap.keys s.clients

/-- Every registered transport is open. -/
def allOpen (s : ServerState) : Prop := ∀ e ∈ s.clients, e.2.wsOpen = true

/-- Every room member is a registered connection. -/
def roomsRegistered (s : ServerState) : Prop :=
  ∀ e ∈ s.rooms, ∀ cid ∈ e.2, (OMap.find? s.clients cid).isSome

/-- Every user-session member is a registered connection. -/
def usersRegistered (s : ServerState) : Prop :=
  ∀ e ∈ s.userSessions, ∀ cid ∈ e.2, (OMap.find? s.clients cid).isSome

/-- No room and no user-session entry has an empty member set. -/
def noEmptyEntries (s : ServerState) : Prop :=
  (∀ e ∈ s.rooms, e.2 ≠ []) ∧ (∀ e ∈ s.userSessions, e.2 ≠ [])

/-- The members of `l` that are not excluded by `x`. -/
def targetList (l : List String) (x : Option String) : List String :=
  l.filter (fun d => x ≠ some d)

instance (s : ServerState) : Decidable (allOpen s) :=
  inferInstanceAs (Decidable (∀ e ∈ s.clients, e.2.wsOpen = true))

instance (s : ServerState) : Decidable (roomsRegistered s) :=
  inferInstanceAs (Decidable (∀ e ∈ s.rooms, ∀ cid ∈ e.2, (OMap.find? s.clients cid).isSome))

instance (s : ServerState) : Decidable (usersRegistered s) :=
  inferInstanceAs (Decidable (∀ e ∈ s.userSessions, ∀ cid ∈ e.2, (OMap.find? s.clients cid).isSome))

instance (s : ServerState) : Decidable (noEmptyEntries s) :=
  inferInstanceAs (Decidable ((∀ e ∈ s.rooms, e.2 ≠ []) ∧ (∀ e ∈ s.userSessions, e.2 ≠ [])))

/-! ### Concrete scenarios used as witnesses and counterexamples -/

/-- Three clients; `A` and `B` join room `"g"`. -/
def c1WitnessState : ServerState :=
  run initialState
    [.connect 0 "A" "sa" true, .connect 0 "B" "sb" true, .connect 0 "C" "sc" true,
     .message 1 "A" (some ⟨"SUBSCRIBE", { rooms := some ["g"] }⟩),
     .message 2 "B" (some ⟨"SUBSCRIBE", { rooms := some ["g"] }⟩)]

/-- Three clients; only `B` joins the room whose name is the empty string. -/
def c1CexState : ServerState :=
  run initialState
    [.connect 0 "A" "sa" true, .connect 0 "B" "sb" true, .connect 0 "C" "sc" true,
     .message 1 "B" (some ⟨"SUBSCRIBE", { rooms := some [""] }⟩)]

/-- Two clients both bound to user `"u1"` (spec scenario C). -/
def c2WitnessState : ServerState :=
  run initialState
    [.connect 0 "A" "sa" true, .connect 0 "B" "sb" true,
     .message 1 "A" (some ⟨"SUBSCRIBE", { userId := some "u1" }⟩),
     .message 2 "B" (some ⟨"SUBSCRIBE", { userId := some "u1" }⟩)]

/-- A client binds `"u1"`, rebinds to `"u2"`, then disconnects. -/
def c3BugState : ServerState :=
  run initialState
    [.connect 0 "A" "s" true,
     .message 1 "A" (some ⟨"SUBSCRIBE", { userId := some "u1" }⟩),
     .message 2 "A" (some ⟨"SUBSCRIBE", { userId := some "u2" }⟩),
     .disconnect 3 "A"]

/-- One registered client whose transport is not open. -/
def c5CexState : ServerState := run initialState [.connect 0 "A" "sess" false]

def c5CexMsg : OutMsg := ⟨"STATE_SYNC", .stateSync "x", 1, none⟩

/-- Two open clients, for the write-error disconnect path. -/
def c5WitnessState : ServerState :=
  run initialState [.connect 0 "A" "sa" true, .connect 0 "B" "sb" true]

/-- `A` idle since time 0, `B` active at time 400000. -/
def c6WitnessState : ServerState :=
  run initialState
    [.connect 0 "A" "sa" true, .connect 1000 "B" "sb" true,
     .message 400000 "B" (some ⟨"HEARTBEAT", {}⟩)]

/-- A client connects and then disconnects. -/
def c7BugState : ServerState :=
  run initialState [.connect 0 "A" "s" true, .disconnect 1 "A"]

/-- A single registered client. -/
def c9WitnessState : ServerState := run initialState [.connect 0 "A" "s" true]

/-! ### Basic facts about the ordered map and set -/

namespace OMap

theorem find?_set_self (m : OMap α) (k : String) (v : α) : find? (set m k v) k = some v := by
  induction m with
  | nil => simp [set, find?]
  | cons e rest ih =>
      obtain ⟨k', v'⟩ := e
      by_cases h : k' = k <;> simp [set, find?, h, ih]

theorem find?_set_ne (m : OMap α) (k k' : String) (v : α) (h : k ≠ k') :
    find? (set m k v) k' = find? m k' := by
  induction m with
  | nil => simp [set, find?, h]
  | cons e rest ih =>
      obtain ⟨a, b⟩ := e
      by_cases he : a = k
      · subst he
        simp [set, find?, h]
      · simp [set, find?, he, ih]

theorem set_of_find?_eq (m : OMap α) (k : String) (v : α) (h : find? m k = some v) :
    set m k v = m := by
  induction m with
  | nil => simp [find?] at h
  | cons e rest ih =>
      obtain ⟨a, b⟩ := e
      by_cases he : a = k
      · simp [find?, he] at h
        simp [set, he, h]
      · simp [find?, he] at h
        simp [set, he, ih h]

theorem set_set (m : OMap α) (k : String) (v v' : α) :
    set (set m k v) k v' = set m k v' := by
  induction m with
  | nil => simp [set]
  | cons e rest ih =>
      obtain ⟨a, b⟩ := e
      by_cases he : a = k <;> simp [set, he, ih]

theorem find?_mem (m : OMap α) (k : String) (v : α) (h : find? m k = some v) : (k, v) ∈ m := by
  induction m with
  | nil => simp [find?] at h
  | cons e rest ih =>
      obtain ⟨a, b⟩ := e
      by_cases he : a = k
      · simp [find?, he] at h
        simp [he, h]
      · simp [find?, he] at h
        exact List.mem_cons_of_mem _ (ih h)

theorem mem_keys_of_find? (m : OMap α) (k : String) (v : α) (h : find? m k = some v) :
    k ∈ keys m := by
  have := find?_mem m k v h
  simpa [keys] using ⟨v, this⟩

theorem keys_nil : keys ([] : OMap α) = [] := rfl

theorem keys_cons (e : String × α) (rest : OMap α) : keys (e :: rest) = e.1 :: keys rest := rfl

theorem find?_none_of_not_mem_keys (m : OMap α) (k : String) (h : k ∉ keys m) :
    find? m k = none := by
  induction m with
  | nil => simp [find?]
  | cons e rest ih =>
      obtain ⟨a, b⟩ := e
      simp only [keys_cons, List.mem_cons, not_or] at h
      have hak : ¬ a = k := fun hh => h.1 hh.symm
      simp [find?, hak]
      exact ih h.2

theorem find?_of_mem_nodup (m : OMap α) (e : String × α) (hN : (keys m).Nodup)
    (h : e ∈ m) : find? m e.1 = some e.2 := by
  induction m with
  | nil => simp at h
  | cons e' rest ih =>
      obtain ⟨a, b⟩ := e'
      simp only [keys, List.map_cons, List.nodup_cons] at hN
      rcases List.mem_cons.1 h with h | h
      · subst h
        simp [find?]
      · have hne : a ≠ e.1 := by
          intro heq
          exact hN.1 (heq ▸ (by simpa [keys] using ⟨e.2, (by simpa using h)⟩))
        simp [find?, hne]
        exact ih hN.2 h

theorem find?_del_ne (m : OMap α) (k k' : String) (h : k ≠ k') :
    find? (del m k) k' = find? m k' := by
  induction m with
  | nil => simp [del]
  | cons e rest ih =>
      obtain ⟨a, b⟩ := e
      by_cases he : a = k
      · subst he
        simp [del, find?, h]
      · simp [del, he, find?, ih]

theorem find?_del_self (m : OMap α) (k : String) (hN : (keys m).Nodup) :
    find? (del m k) k = none := by
  induction m with
  | nil => simp [del, find?]
  | cons e rest ih =>
      obtain ⟨a, b⟩ := e
      simp only [keys_cons, List.nodup_cons] at hN
      by_cases he : a = k
      · subst he
        simp only [del, if_pos rfl]
        exact find?_none_of_not_mem_keys rest a hN.1
      · simp [del, he, find?]
        exact ih hN.2

theorem keys_set_of_found (m : OMap α) (k : String) (v v' : α) (h : find? m k = some v) :
    keys (set m k v') = keys m := by
  induction m with
  | nil => simp [find?] at h
  | cons e rest ih =>
      obtain ⟨a, b⟩ := e
      by_cases he : a = k
      · simp [set, he, keys_cons]
      · simp [find?, he] at h
        simp [set, he, keys_cons]
        exact ih h

theorem keys_del_sublist (m : OMap α) (k : String) : (keys (del m k)).Sublist (keys m) := by
  induction m with
  | nil => simp [del]
  | cons e rest ih =>
      obtain ⟨a, b⟩ := e
      by_cases he : a = k
      · subst he
        simp only [del, if_pos rfl, keys_cons]
        exact List.sublist_cons_self _ _
      · simp only [del, if_neg he, keys_cons]
        exact ih.cons₂ _

theorem nodup_keys_del (m : OMap α) (k : String) (hN : (keys m).Nodup) :
    (keys (del m k)).Nodup := (keys_del_sublist m k).nodup hN

theorem find?_del_of_none (m : OMap α) (k k' : String) (h : find? m k' = none) :
    find? (del m k) k' = none := by
  induction m with
  | nil => simp [del, find?]
  | cons e rest ih =>
      obtain ⟨a, b⟩ := e
      simp only [find?] at h
      by_cases hak : a = k'
      · simp [hak] at h
      · simp [hak] at h
        by_cases he : a = k
        · simp [del, he, h]
        · simp [del, he, find?, hak]
          exact ih h

end OMap

theorem OMap.mem_set (m : OMap α) (k : String) (v : α) (e : String × α)
    (h : e ∈ OMap.set m k v) : e ∈ m ∨ e = (k, v) := by
  induction m with
  | nil => simpa [OMap.set] using h
  | cons e' rest ih =>
      obtain ⟨a, b⟩ := e'
      by_cases he : a = k
      · simp [OMap.set, he] at h
        rcases h with h | h
        · right; simpa [he] using h
        · left; exact List.mem_cons_of_mem _ h
      · simp [OMap.set, he] at h
        rcases h with h | h
        · left; simp [h]
        · rcases ih h with h | h
          · left; exact List.mem_cons_of_mem _ h
          · right; exact h

theorem OSet.mem_add (s : OSet) (x y : String) : y ∈ OSet.add s x ↔ y = x ∨ y ∈ s := by
  by_cases h : x ∈ s
  · simp [OSet.add, h]
    intro hy; subst hy; exact h
  · simp [OSet.add, h, or_comm]

theorem OSet.add_ne_nil (s : OSet) (x : String) : OSet.add s x ≠ [] := by
  by_cases h : x ∈ s
  · simp [OSet.add, h]
    rintro rfl
    simp at h
  · simp [OSet.add, h]

theorem OSet.add_of_mem (s : OSet) (x : String) (h : x ∈ s) : OSet.add s x = s := by
  simp [OSet.add, h]

theorem OSet.mem_add_self (s : OSet) (x : String) : x ∈ OSet.add s x := by
  simp [OSet.mem_add]

/-! ### Delivery lemmas -/

theorem sendToClient_eq (s : ServerState) (d : String) (msg : OutMsg) (c : Client)
    (h : OMap.find? s.clients d = some c) (ho : c.wsOpen = true) :
    sendToClient s d msg = [(d, msg)] := by
  simp [sendToClient, h, ho]

theorem sendToClient_of_allOpen (s : ServerState) (d : String) (msg : OutMsg)
    (ha : allOpen s) (h : (OMap.find? s.clients d).isSome) :
    sendToClient s d msg = [(d, msg)] := by
  obtain ⟨c, hc⟩ := Option.isSome_iff_exists.1 h
  exact sendToClient_eq s d msg c hc (ha _ (OMap.find?_mem _ _ _ hc))

theorem foldr_send_eq (s : ServerState) (msg : OutMsg) (x : Option String) (l : List String)
    (h : ∀ cid ∈ l, sendToClient s cid msg = [(cid, msg)]) :
    l.foldr (fun cid acc => (if x = some cid then [] else sendToClient s cid msg) ++ acc) [] =
      (targetList l x).map (fun d => (d, msg)) := by
  induction l with
  | nil => simp [targetList]
  | cons a l ih =>
      have ha := h a (List.mem_cons_self a l)
      have ih := ih (fun cid hc => h cid (List.mem_cons_of_mem _ hc))
      by_cases hx : x = some a
      · simp [targetList, List.filter_cons, hx] at ih ⊢
        exact ih
      · simp [targetList, List.filter_cons, hx, ha] at ih ⊢
        exact ih

theorem foldr_send_entries_eq (s : ServerState) (msg : OutMsg) (x : Option String)
    (l : List (String × Client)) (h : ∀ e ∈ l, sendToClient s e.1 msg = [(e.1, msg)]) :
    l.foldr (fun e acc => (if x = some e.1 then [] else sendToClient s e.1 msg) ++ acc) [] =
      (targetList (l.map Prod.fst) x).map (fun d => (d, msg)) := by
  induction l with
  | nil => simp [targetList]
  | cons a l ih =>
      have ha := h a (List.mem_cons_self a l)
      have ih := ih (fun e hc => h e (List.mem_cons_of_mem _ hc))
      by_cases hx : x = some a.1
      · simp [targetList, List.filter_cons, hx] at ih ⊢
        exact ih
      · simp [targetList, List.filter_cons, hx, ha] at ih ⊢
        exact ih

theorem broadcastToAll_eq (s : ServerState) (msg : OutMsg) (x : Option String)
    (hopen : allOpen s) (hN : (clientIds s).Nodup) :
    broadcastToAll s msg x = (targetList (clientIds s) x).map (fun d => (d, msg)) := by
  unfold broadcastToAll
  rw [foldr_send_entries_eq]
  · rfl
  · intro e he
    exact sendToClient_eq s e.1 msg e.2 (OMap.find?_of_mem_nodup _ _ hN he) (hopen e he)

theorem broadcastToRoom_eq (s : ServerState) (r : String) (msg : OutMsg) (x : Option String)
    (h : ∀ cid ∈ membersOf s r, sendToClient s cid msg = [(cid, msg)]) :
    broadcastToRoom s r msg x = (targetList (membersOf s r) x).map (fun d => (d, msg)) := by
  unfold broadcastToRoom
  unfold membersOf at h ⊢
  cases hfind : OMap.find? s.rooms r with
  | none => simp [targetList]
  | some mem =>
      rw [hfind] at h
      exact foldr_send_eq s msg x mem h

theorem broadcastToUser_eq (s : ServerState) (u : String) (msg : OutMsg) (x : Option String)
    (h : ∀ cid ∈ connectionsOf s u, sendToClient s cid msg = [(cid, msg)]) :
    broadcastToUser s u msg x = (targetList (connectionsOf s u) x).map (fun d => (d, msg)) := by
  unfold broadcastToUser
  unfold connectionsOf at h ⊢
  cases hfind : OMap.find? s.userSessions u with
  | none => simp [targetList]
  | some mem =>
      rw [hfind] at h
      exact foldr_send_eq s msg x mem h

theorem mem_foldr_send_entries (s : ServerState) (msg : OutMsg) (x : Option String)
    (l : List (String × Client)) (d : String)
    (hsend : sendToClient s d msg = [(d, msg)]) (hx : x ≠ some d)
    (hmem : ∃ c, (d, c) ∈ l) :
    (d, msg) ∈
      l.foldr (fun e acc => (if x = some e.1 then [] else sendToClient s e.1 msg) ++ acc) [] := by
  induction l with
  | nil => simp at hmem
  | cons a l ih =>
      obtain ⟨c, hc⟩ := hmem
      rcases List.mem_cons.1 hc with hc | hc
      · have ha : a.1 = d := by rw [← hc]
        simp only [List.foldr_cons, ha]
        rw [if_neg hx, hsend]
        exact List.mem_append_left _ (List.mem_cons_self _ _)
      · exact List.mem_append_right _ (ih ⟨c, hc⟩)

theorem mem_broadcastToAll (s : ServerState) (msg : OutMsg) (x : Option String)
    (d : String) (c : Client) (hd : OMap.find? s.clients d = some c)
    (ho : c.wsOpen = true) (hx : x ≠ some d) : (d, msg) ∈ broadcastToAll s msg x := by
  unfold broadcastToAll
  exact mem_foldr_send_entries s msg x s.clients d (sendToClient_eq s d msg c hd ho) hx
    ⟨c, OMap.find?_mem _ _ _ hd⟩

/-! ### The touch on inbound messages -/

theorem touch_rooms (s : ServerState) (cid : String) (c : Client) (now : Nat) :
    (touchClient s cid c now).rooms = s.rooms := rfl

theorem touch_userSessions (s : ServerState) (cid : String) (c : Client) (now : Nat) :
    (touchClient s cid c now).userSessions = s.userSessions := rfl

theorem touch_clientIds (s : ServerState) (cid : String) (c : Client) (now : Nat)
    (h : OMap.find? s.clients cid = some c) :
    clientIds (touchClient s cid c now) = clientIds s :=
  OMap.keys_set_of_found s.clients cid c _ h

theorem touch_allOpen (s : ServerState) (cid : String) (c : Client) (now : Nat)
    (h : OMap.find? s.clients cid = some c) (ha : allOpen s) :
    allOpen (touchClient s cid c now) := by
  intro e he
  rcases OMap.mem_set _ _ _ _ he with hm | hm
  · exact ha e hm
  · subst hm
    simpa using ha (cid, c) (OMap.find?_mem _ _ _ h)

theorem touch_isSome (s : ServerState) (cid : String) (c : Client) (now : Nat)
    (h : OMap.find? s.clients cid = some c) (d : String) :
    (OMap.find? (touchClient s cid c now).clients d).isSome =
      (OMap.find? s.clients d).isSome := by
  by_cases hd : cid = d
  · subst hd
    simp [touchClient, OMap.find?_set_self, h]
  · simp [touchClient, OMap.find?_set_ne _ _ _ _ hd]

theorem sendToClient_touch (s : ServerState) (cid : String) (c : Client) (now : Nat)
    (h : OMap.find? s.clients cid = some c) (ha : allOpen s) (d : String) (msg : OutMsg)
    (hd : (OMap.find? s.clients d).isSome) :
    sendToClient (touchClient s cid c now) d msg = [(d, msg)] :=
  sendToClient_of_allOpen _ d msg (touch_allOpen s cid c now h ha)
    ((touch_isSome s cid c now h d).trans hd ▸ by rw [touch_isSome s cid c now h d, hd])

theorem registered_of_mem_membersOf (s : ServerState) (r cid : String)
    (hrooms : roomsRegistered s) (h : cid ∈ membersOf s r) :
    (OMap.find? s.clients cid).isSome := by
  unfold membersOf at h
  cases hf : OMap.find? s.rooms r with
  | none => rw [hf] at h; simp at h
  | some mem =>
      rw [hf] at h
      exact hrooms (r, mem) (OMap.find?_mem _ _ _ hf) cid h

theorem registered_of_mem_connectionsOf (s : ServerState) (u cid : String)
    (husers : usersRegistered s) (h : cid ∈ connectionsOf s u) :
    (OMap.find? s.clients cid).isSome := by
  unfold connectionsOf at h
  cases hf : OMap.find? s.userSessions u with
  | none => rw [hf] at h; simp at h
  | some mem =>
      rw [hf] at h
      exact husers (u, mem) (OMap.find?_mem _ _ _ hf) cid h

/-! ### Router dispatch -/

theorem handleMessage_eventBroadcast (s : ServerState) (now : Nat) (cid : String)
    (p : InPayload) (c : Client) (hc : OMap.find? s.clients cid = some c) :
    handleMessage s now cid ⟨"EVENT_BROADCAST", p⟩ =
      handleEventBroadcast (touchClient s cid c now) now cid p := by
  unfold handleMessage
  rw [hc]
  rfl

theorem handleMessage_stateSync (s : ServerState) (now : Nat) (cid : String)
    (p : InPayload) (c : Client) (hc : OMap.find? s.clients cid = some c) :
    handleMessage s now cid ⟨"STATE_SYNC", p⟩ =
      handleStateSync (touchClient s cid c now) now cid p := by
  unfold handleMessage
  rw [hc]
  rfl

theorem handleMessage_subscribe (s : ServerState) (now : Nat) (cid : String)
    (p : InPayload) (c : Client) (hc : OMap.find? s.clients cid = some c) :
    handleMessage s now cid ⟨"SUBSCRIBE", p⟩ =
      (handleSubscribe (touchClient s cid c now) cid p, []) := by
  unfold handleMessage
  rw [hc]
  rfl

/-! ### Claim C1: EVENT_BROADCAST addressing -/

/-- **C1** (amended): when the router handles EVENT_BROADCAST from a
registered sender with all transports open, room members registered and
no duplicate registry keys, the wrapped event is delivered to exactly
`membersOf(room) \ sender` when a room with a non-empty name is present
in the payload, and to all registered connections minus the sender when
the room field is absent or its name is the empty string. -/
theorem c1_event_broadcast_targets (s : ServerState) (now : Nat) (sender : String)
    (p : InPayload) (hreg : (OMap.find? s.clients sender).isSome) (hopen : allOpen s)
    (hN : (clientIds s).Nodup) (hrooms : roomsRegistered s) :
    (handleMessage s now sender ⟨"EVENT_BROADCAST", p⟩).2 =
      (targetList
        (match p.room with
         | some r => if r ≠ "" then membersOf s r else clientIds s
         | none => clientIds s) (some sender)).map
        (fun d =>
          (d, ⟨"EVENT_BROADCAST", .eventWrap p.eventType p.eventPayload sender, now,
            some sender⟩)) := by
  obtain ⟨c, hc⟩ := Option.isSome_iff_exists.1 hreg
  rw [handleMessage_eventBroadcast s now sender p c hc]
  set s1 := touchClient s sender c now with hs1
  have hopen1 : allOpen s1 := touch_allOpen s sender c now hc hopen
  have hids : clientIds s1 = clientIds s := touch_clientIds s sender c now hc
  unfold handleEventBroadcast
  cases hr : p.room with
  | none =>
      simp only [strTruthy]
      rw [broadcastToAll_eq s1 _ (some sender) hopen1 (hids ▸ hN), hids]
      rfl
  | some r =>
      have hmem : membersOf s1 r = membersOf s r := by
        unfold membersOf
        rw [touch_rooms]
      rcases eq_or_ne r "" with rfl | hre
      · simp only [strTruthy]
        rw [broadcastToAll_eq s1 _ (some sender) hopen1 (hids ▸ hN), hids]
        rfl
      · have ht : strTruthy (some r) = true := by simp [strTruthy, hre]
        rw [ht]
        simp only [if_true, Option.getD_some]
        rw [broadcastToRoom_eq s1 r _ (some sender), hmem]
        · simp [hre]
        · intro d hd
          rw [hmem] at hd
          exact sendToClient_touch s sender c now hc hopen d _
            (registered_of_mem_membersOf s r d hrooms hd)

/-- Witness for C1: in `c1WitnessState` (rooms `"g" = {A, B}`, clients
`A`, `B`, `C`), an EVENT_BROADCAST from `A` into room `"g"` is delivered
to exactly `B`. -/
theorem c1_witness :
    (handleMessage c1WitnessState 5 "A"
        ⟨"EVENT_BROADCAST", { eventType := "ping", eventPayload := "x", room := some "g" }⟩).2 =
      (targetList
        (match (some "g" : Option String) with
         | some r => if r ≠ "" then membersOf c1WitnessState r else clientIds c1WitnessState
         | none => clientIds c1WitnessState) (some "A")).map
        (fun d =>
          (d, ⟨"EVENT_BROADCAST", .eventWrap "ping" "x" "A", 5, some "A"⟩)) :=
  c1_event_broadcast_targets c1WitnessState 5 "A"
    { eventType := "ping", eventPayload := "x", room := some "g" }
    (by decide) (by decide) (by decide) (by decide)

/-- Counterexample to C1 as stated: a room named `""` is present in the
payload, yet the message is not delivered to `membersOf("") \ {sender}`
(which is `{B}`): it also reaches `C`, because the code tests JavaScript
truthiness rather than presence. -/
theorem c1_counterexample :
    (some "" : Option String).isSome = true ∧
    membersOf c1CexState "" = ["B"] ∧
    ("C", (⟨"EVENT_BROADCAST", .eventWrap "ping" "x" "A", 5, some "A"⟩ : OutMsg)) ∈
      (handleMessage c1CexState 5 "A"
        ⟨"EVENT_BROADCAST", { eventType := "ping", eventPayload := "x", room := some "" }⟩).2 ∧
    "C" ∉ membersOf c1CexState "" := by
  decide

/-! ### Claim C2: STATE_SYNC addressing -/

theorem mem_targetList (l : List String) (x : Option String) (d : String) :
    d ∈ targetList l x ↔ d ∈ l ∧ x ≠ some d := by
  simp [targetList]

theorem mem_foldr_append {β γ : Type} (g : γ → List β) (l : List γ) (y : β) :
    (y ∈ l.foldr (fun u acc => g u ++ acc) []) ↔ ∃ u ∈ l, y ∈ g u := by
  induction l with
  | nil => simp
  | cons a l ih => simp [ih]

theorem touch_connectionsOf (s : ServerState) (cid : String) (c : Client) (now : Nat)
    (u : String) : connectionsOf (touchClient s cid c now) u = connectionsOf s u := rfl

theorem mem_foldr_broadcastToUser (t : ServerState) (msg : OutMsg) (x : Option String)
    (l : List String) (y : Event) :
    (y ∈ l.foldr (fun userId acc => broadcastToUser t userId msg x ++ acc) []) ↔
      ∃ u ∈ l, y ∈ broadcastToUser t u msg x := by
  induction l with
  | nil => simp
  | cons a l ih => simp [ih]

/-- **C2** (confirmed): when the router handles STATE_SYNC from a
registered sender with all transports open, user-session members
registered and no duplicate registry keys, the outbound STATE_SYNC is
delivered to the union of `connectionsOf(u)` over a present non-empty
`targetUsers` list and to all registered connections otherwise, minus the
sender exactly when `excludeSelf` (default `true`) holds. -/
theorem c2_state_sync_targets (s : ServerState) (now : Nat) (sender : String)
    (p : InPayload) (hreg : (OMap.find? s.clients sender).isSome) (hopen : allOpen s)
    (hN : (clientIds s).Nodup) (husers : usersRegistered s) :
    (∀ ev ∈ (handleMessage s now sender ⟨"STATE_SYNC", p⟩).2,
        ev.2 = ⟨"STATE_SYNC", .stateSync p.stateUpdates, now, some sender⟩) ∧
    ∀ d,
      ((d, (⟨"STATE_SYNC", .stateSync p.stateUpdates, now, some sender⟩ : OutMsg)) ∈
          (handleMessage s now sender ⟨"STATE_SYNC", p⟩).2 ↔
        ((match p.targetUsers with
          | some l =>
              if l.length > 0 then ∃ u ∈ l, d ∈ connectionsOf s u else d ∈ clientIds s
          | none => d ∈ clientIds s) ∧
          (p.excludeSelf.getD true = true → d ≠ sender))) := by
  obtain ⟨c, hc⟩ := Option.isSome_iff_exists.1 hreg
  rw [handleMessage_stateSync s now sender p c hc]
  set s1 := touchClient s sender c now with hs1
  have hopen1 : allOpen s1 := touch_allOpen s sender c now hc hopen
  have hids : clientIds s1 = clientIds s := touch_clientIds s sender c now hc
  have hx : ∀ d : String,
      ((if p.excludeSelf.getD true = true then some sender else none) ≠ some d) ↔
        (p.excludeSelf.getD true = true → d ≠ sender) := by
    intro d
    cases hes : p.excludeSelf.getD true with
    | false => simp
    | true =>
        simp
        constructor
        · exact fun h h' => h h'.symm
        · exact fun h h' => h h'.symm
  have husend : ∀ (u : String) (msg : OutMsg) (x : Option String),
      broadcastToUser s1 u msg x = (targetList (connectionsOf s u) x).map (fun d => (d, msg)) := by
    intro u msg x
    rw [← touch_connectionsOf s sender c now u]
    apply broadcastToUser_eq
    intro d hd
    rw [touch_connectionsOf] at hd
    exact sendToClient_touch s sender c now hc hopen d _
      (registered_of_mem_connectionsOf s u d husers hd)
  have hall : ∀ (msg : OutMsg) (x : Option String),
      broadcastToAll s1 msg x = (targetList (clientIds s) x).map (fun d => (d, msg)) := by
    intro msg x
    rw [broadcastToAll_eq s1 msg x hopen1 (hids ▸ hN), hids]
  unfold handleStateSync
  cases ht : p.targetUsers with
  | none =>
      dsimp only
      rw [hall]
      constructor
      · intro ev hev
        rcases List.mem_map.1 hev with ⟨d, _, rfl⟩
        rfl
      · intro d
        rw [List.mem_map]
        constructor
        · rintro ⟨d', hd', heq⟩
          have hdd : d' = d := by simpa using congrArg Prod.fst heq
          rw [hdd] at hd'
          rw [mem_targetList] at hd'
          exact ⟨hd'.1, fun h' => (hx d).1 hd'.2 h'⟩
        · rintro ⟨hdmem, hself⟩
          exact ⟨d, (mem_targetList _ _ _).2 ⟨hdmem, (hx d).2 hself⟩, rfl⟩
  | some l =>
      cases l with
      | nil =>
          simp only [if_neg (show ¬(([] : List String).length > 0) by simp)]
          rw [hall]
          constructor
          · intro ev hev
            rcases List.mem_map.1 hev with ⟨d, _, rfl⟩
            rfl
          · intro d
            rw [List.mem_map]
            constructor
            · rintro ⟨d', hd', heq⟩
              have hdd : d' = d := by simpa using congrArg Prod.fst heq
              rw [hdd] at hd'
              rw [mem_targetList] at hd'
              exact ⟨hd'.1, fun h' => (hx d).1 hd'.2 h'⟩
            · rintro ⟨hdmem, hself⟩
              exact ⟨d, (mem_targetList _ _ _).2 ⟨hdmem, (hx d).2 hself⟩, rfl⟩
      | cons u0 l' =>
          simp only [if_pos (show (u0 :: l').length > 0 by simp)]
          constructor
          · intro ev hev
            rw [mem_foldr_broadcastToUser] at hev
            obtain ⟨u, _, hu⟩ := hev
            rw [husend u] at hu
            rcases List.mem_map.1 hu with ⟨d, _, rfl⟩
            rfl
          · intro d
            rw [mem_foldr_broadcastToUser]
            constructor
            · rintro ⟨u, hu, hmem⟩
              rw [husend u] at hmem
              rcases List.mem_map.1 hmem with ⟨d', hd', heq⟩
              have hdd : d' = d := by simpa using congrArg Prod.fst heq
              rw [hdd] at hd'
              rw [mem_targetList] at hd'
              exact ⟨⟨u, hu, hd'.1⟩, fun h' => (hx d).1 hd'.2 h'⟩
            · rintro ⟨⟨u, hu, hmem⟩, hself⟩
              refine ⟨u, hu, ?_⟩
              rw [husend u]
              exact List.mem_map.2
                ⟨d, (mem_targetList _ _ _).2 ⟨hmem, (hx d).2 hself⟩, rfl⟩

/-- Witness for C2 (spec scenario C): connections `A` and `B` are both
bound to `"u1"`; a STATE_SYNC from `A` with `targetUsers = ["u1"]` and
`excludeSelf` absent reaches `B` but not `A`. -/
theorem c2_witness :
    (∀ ev ∈ (handleMessage c2WitnessState 3 "A"
        ⟨"STATE_SYNC", { stateUpdates := "st", targetUsers := some ["u1"] }⟩).2,
        ev.2 = ⟨"STATE_SYNC", .stateSync "st", 3, some "A"⟩) ∧
    ∀ d,
      ((d, (⟨"STATE_SYNC", .stateSync "st", 3, some "A"⟩ : OutMsg)) ∈
          (handleMessage c2WitnessState 3 "A"
            ⟨"STATE_SYNC", { stateUpdates := "st", targetUsers := some ["u1"] }⟩).2 ↔
        ((match (some ["u1"] : Option (List String)) with
          | some l =>
              if l.length > 0 then ∃ u ∈ l, d ∈ connectionsOf c2WitnessState u
              else d ∈ clientIds c2WitnessState
          | none => d ∈ clientIds c2WitnessState) ∧
          ((none : Option Bool).getD true = true → d ≠ "A"))) :=
  c2_state_sync_targets c2WitnessState 3 "A"
    { stateUpdates := "st", targetUsers := some ["u1"] }
    (by decide) (by decide) (by decide) (by decide)

/-! ### Claim C3: registry and membership-index consistency -/

/-- **C3** (code bug): connection `A` binds `userId = "u1"`, rebinds to
`"u2"`, then disconnects.  `handleSubscribe` does not remove the old
binding and `handleDisconnection` only purges the currently bound
`userId`, so `A` survives in the `"u1"` user-session set after it has
been removed from the registry — the claimed mutual consistency fails. -/
theorem c3_stale_user_session_after_rebind :
    OMap.find? c3BugState.clients "A" = none ∧
    "A" ∈ connectionsOf c3BugState "u1" := by
  decide

/-! ### Claim C5: send failure handling -/

theorem handleDisconnection_clients (s : ServerState) (now : Nat) (cid : String) (c : Client)
    (h : OMap.find? s.clients cid = some c) :
    (handleDisconnection s now cid).1.clients = OMap.del s.clients cid := by
  unfold handleDisconnection
  rw [h]

/-- **C5** (amended): a write error on an open transport runs exactly the
disconnect procedure and leaves the connection unregistered, with nothing
retried or buffered; but a send to a registered connection whose
transport is not open is silently skipped and does not remove the
connection. -/
theorem c5_send_failure_behaviour (s : ServerState) (now : Nat) (cid : String)
    (msg : OutMsg) (c : Client) (hreg : OMap.find? s.clients cid = some c)
    (hN : (clientIds s).Nodup) :
    (c.wsOpen = false → ∀ wf, sendToClientTry s now cid msg wf = (s, [])) ∧
    (c.wsOpen = true →
      sendToClientTry s now cid msg true = handleDisconnection s now cid ∧
      OMap.find? (sendToClientTry s now cid msg true).1.clients cid = none ∧
      sendToClientTry s now cid msg false = (s, [(cid, msg)])) := by
  constructor
  · intro ho wf
    unfold sendToClientTry
    rw [hreg]
    dsimp only
    simp [ho]
  · intro ho
    have he : sendToClientTry s now cid msg true = handleDisconnection s now cid := by
      unfold sendToClientTry
      rw [hreg]
      dsimp only
      simp [ho]
    refine ⟨he, ?_, ?_⟩
    · rw [he, handleDisconnection_clients s now cid c hreg]
      exact OMap.find?_del_self s.clients cid hN
    · unfold sendToClientTry
      rw [hreg]
      dsimp only
      simp [ho]

/-- Witness for C5: applying the theorem to a concrete two-client state
with `A` open: a write error removes `A`, a plain send delivers. -/
theorem c5_witness :
    ((⟨none, "sa", 0, 0, [], true⟩ : Client).wsOpen = false →
      ∀ wf, sendToClientTry c5WitnessState 7 "A" c5CexMsg wf = (c5WitnessState, [])) ∧
    ((⟨none, "sa", 0, 0, [], true⟩ : Client).wsOpen = true →
      sendToClientTry c5WitnessState 7 "A" c5CexMsg true =
        handleDisconnection c5WitnessState 7 "A" ∧
      OMap.find? (sendToClientTry c5WitnessState 7 "A" c5CexMsg true).1.clients "A" = none ∧
      sendToClientTry c5WitnessState 7 "A" c5CexMsg false =
        (c5WitnessState, [("A", c5CexMsg)])) :=
  c5_send_failure_behaviour c5WitnessState 7 "A" c5CexMsg ⟨none, "sa", 0, 0, [], true⟩
    (by decide) (by decide)

/-- Counterexample to C5 as stated: `A` is registered but its transport is
not open; the send fails in the claim's sense, yet the state is unchanged
— `A` is not removed and no disconnect procedure runs. -/
theorem c5_counterexample :
    OMap.find? c5CexState.clients "A" = some ⟨none, "sess", 0, 0, [], false⟩ ∧
    sendToClientTry c5CexState 1 "A" c5CexMsg true = (c5CexState, []) := by
  decide

/-! ### Claim C7: heartbeat timer cancellation -/

/-- **C7** (code bug): after the disconnect procedure removes `A` from
the registry, `A`'s heartbeat interval is still scheduled (nothing in
`handleDisconnection` touches the timers); only the next tick notices the
missing connection, sends nothing, and clears the timer then. -/
theorem c7_heartbeat_timer_survives_removal :
    OMap.find? c7BugState.clients "A" = none ∧
    "A" ∈ c7BugState.timers ∧
    heartbeatTick c7BugState 2 "A" = ({ c7BugState with timers := [] }, []) := by
  decide

/-! ### Claim C8: distinctness of generated connection identifiers -/

theorem natDigitsGo_fuel (f : Nat) :
    ∀ f' n, n < f → n < f' → natDigitsGo f n = natDigitsGo f' n := by
  induction f with
  | zero => intro f' n h; omega
  | succ f ih =>
      intro f' n hn hn'
      cases f' with
      | zero => omega
      | succ f' =>
          simp only [natDigitsGo]
          by_cases h10 : n < 10
          · simp [h10]
          · have hd : n / 10 < n := Nat.div_lt_self (by omega) (by omega)
            simp only [h10, if_false]
            rw [ih f' (n / 10) (by omega) (by omega)]

theorem natDigits_eq (n : Nat) :
    natDigits n = if n < 10 then [digitChar n] else natDigits (n / 10) ++ [digitChar (n % 10)] := by
  by_cases h10 : n < 10
  · simp [natDigits, natDigitsGo, h10]
  · have hd : n / 10 < n := Nat.div_lt_self (by omega) (by omega)
    have hstep : natDigitsGo (n + 1) n = natDigitsGo n (n / 10) ++ [digitChar (n % 10)] := by
      simp [natDigitsGo, h10]
    simp only [natDigits, h10, if_false, hstep]
    congr 1
    exact natDigitsGo_fuel n (n / 10 + 1) (n / 10) (by omega) (by omega)

theorem natDigits_ne_nil (n : Nat) : natDigits n ≠ [] := by
  rw [natDigits_eq]
  by_cases h10 : n < 10 <;> simp [h10]

theorem digitChar_lt_inj (a b : Nat) (ha : a < 10) (hb : b < 10)
    (h : digitChar a = digitChar b) : a = b := by
  have key : ∀ x : Fin 10, ∀ y : Fin 10, digitChar x.val = digitChar y.val → x = y := by decide
  have := key ⟨a, ha⟩ ⟨b, hb⟩ h
  simpa [Fin.ext_iff] using this

theorem digitChar_ne_underscore (a : Nat) : digitChar a ≠ '_' := by
  unfold digitChar
  split <;> decide

theorem natDigits_no_underscore (n : Nat) : '_' ∉ natDigits n := by
  induction n using Nat.strong_induction_on with
  | _ n ih =>
      rw [natDigits_eq]
      by_cases h10 : n < 10
      · simp [h10, digitChar_ne_underscore n]
        intro h
        exact digitChar_ne_underscore n h.symm
      · have hd : n / 10 < n := Nat.div_lt_self (by omega) (by omega)
        simp [h10]
        refine ⟨ih (n / 10) hd, ?_⟩
        intro h
        exact digitChar_ne_underscore (n % 10) h.symm

theorem natDigits_inj (m : Nat) : ∀ n, natDigits m = natDigits n → m = n := by
  induction m using Nat.strong_induction_on with
  | _ m ih =>
      intro n h
      rw [natDigits_eq m, natDigits_eq n] at h
      by_cases hm : m < 10 <;> by_cases hn : n < 10
      · simp [hm, hn] at h
        exact digitChar_lt_inj m n hm hn h
      · simp [hm, hn] at h
        exact absurd (congrArg List.length h)
          (by
            simp [List.length_append]
            have := natDigits_ne_nil (n / 10)
            cases hh : natDigits (n / 10) with
            | nil => exact absurd hh this
            | cons a l => simp [hh])
      · simp [hm, hn] at h
        exact absurd (congrArg List.length h)
          (by
            simp [List.length_append]
            have := natDigits_ne_nil (m / 10)
            cases hh : natDigits (m / 10) with
            | nil => exact absurd hh this
            | cons a l => simp [hh])
      · simp [hm, hn] at h
        have hlen : ([digitChar (m % 10)] : List Char).length =
            ([digitChar (n % 10)] : List Char).length := rfl
        obtain ⟨h1, h2⟩ := List.append_inj' h hlen
        have hdiv : m / 10 = n / 10 :=
          ih (m / 10) (Nat.div_lt_self (by omega) (by omega)) (n / 10) h1
        have hmod : m % 10 = n % 10 := by
          have := List.head_eq_of_cons_eq h2
          exact digitChar_lt_inj _ _ (Nat.mod_lt _ (by omega)) (Nat.mod_lt _ (by omega)) this
        omega

theorem split_at_underscore (a1 : List Char) :
    ∀ a2 b1 b2, '_' ∉ a1 → '_' ∉ a2 →
      a1 ++ '_' :: b1 = a2 ++ '_' :: b2 → a1 = a2 ∧ b1 = b2 := by
  induction a1 with
  | nil =>
      intro a2 b1 b2 _ h2 h
      cases a2 with
      | nil => simpa using h
      | cons x a2 =>
          simp at h
          exact absurd (h.1 ▸ List.mem_cons_self x a2) (h.1 ▸ h2)
  | cons x a1 ih =>
      intro a2 b1 b2 h1 h2 h
      cases a2 with
      | nil =>
          simp at h
          exact absurd (h.1 ▸ List.mem_cons_self x a1) (h.1 ▸ h1)
      | cons y a2 =>
          simp at h h1 h2 ⊢
          obtain ⟨hxy, hrest⟩ := h
          obtain ⟨ha1, ha2⟩ := ih a2 b1 b2 h1.2 h2.2 hrest
          exact ⟨⟨hxy, ha1⟩, ha2⟩

theorem generateClientId_inj (t1 t2 : Nat) (r1 r2 : String)
    (h1 : '_' ∉ r1.data) (h2 : '_' ∉ r2.data)
    (h : generateClientId t1 r1 = generateClientId t2 r2) : t1 = t2 ∧ r1 = r2 := by
  unfold generateClientId at h
  have hdata : "client_".data ++ natDigits t1 ++ '_' :: r1.data =
      "client_".data ++ natDigits t2 ++ '_' :: r2.data := by
    have := congrArg String.data h
    simpa using this
  simp only [List.append_assoc] at hdata
  have htail : natDigits t1 ++ '_' :: r1.data = natDigits t2 ++ '_' :: r2.data :=
    List.append_cancel_left hdata
  obtain ⟨hts, hrs⟩ := split_at_underscore (natDigits t1) (natDigits t2) r1.data r2.data
    (natDigits_no_underscore t1) (natDigits_no_underscore t2) htail
  refine ⟨natDigits_inj t1 t2 hts, ?_⟩
  cases r1
  cases r2
  exact congrArg String.mk (by simpa using hrs)

/-- **C8** (amended): identifiers returned by a sequence of `register`
calls are pairwise distinct provided no two calls observe both the same
millisecond timestamp and the same random suffix (suffixes being
underscore-free base-36 strings). -/
theorem c8_register_ids_distinct (calls : List (Nat × String))
    (hund : ∀ p ∈ calls, '_' ∉ p.2.data) (hdist : calls.Nodup) :
    (registerIds calls).Nodup := by
  unfold registerIds
  refine List.Nodup.map_on ?_ hdist
  intro x hx y hy hxy
  obtain ⟨ht, hr⟩ := generateClientId_inj x.1 y.1 x.2 y.2 (hund x hx) (hund y hy) hxy
  exact Prod.ext ht hr

/-- Witness for C8: three calls with pairwise different (timestamp,
suffix) observations yield three distinct identifiers. -/
theorem c8_witness : (registerIds [(0, "abc"), (1, "abc"), (0, "xyz")]).Nodup :=
  c8_register_ids_distinct [(0, "abc"), (1, "abc"), (0, "xyz")] (by decide) (by decide)

/-- Counterexample to C8 as stated: two `register` calls that observe the
same millisecond and the same random suffix return the same identifier. -/
theorem c8_counterexample :
    registerIds [(0, "abc"), (0, "abc")] = ["client_0_abc", "client_0_abc"] ∧
    ¬ (registerIds [(0, "abc"), (0, "abc")]).Nodup := by
  decide

/-! ### Claim C9: unknown type tags and malformed payloads -/

/-- **C9** (confirmed): malformed JSON is dropped without any effect, and
a message whose tag is not one of the seven recognized tags produces no
delivery and leaves the registered-connection set, the rooms and the user
sessions unchanged (only the sender's `lastActivity` is refreshed, which
the claim does not forbid). -/
theorem c9_unknown_messages_dropped (s : ServerState) (now : Nat) (cid : String)
    (m : InMsg) (h : m.type ∉ recognizedTags) :
    onRawMessage s now cid none = (s, []) ∧
    (onRawMessage s now cid (some m)).2 = [] ∧
    clientIds (onRawMessage s now cid (some m)).1 = clientIds s ∧
    (onRawMessage s now cid (some m)).1.rooms = s.rooms ∧
    (onRawMessage s now cid (some m)).1.userSessions = s.userSessions := by
  simp only [recognizedTags, List.mem_cons, List.not_mem_nil, or_false, not_or] at h
  obtain ⟨h1, h2, _, _, h5, h6, h7⟩ := h
  refine ⟨rfl, ?_⟩
  show (handleMessage s now cid m).2 = [] ∧
    clientIds (handleMessage s now cid m).1 = clientIds s ∧
    (handleMessage s now cid m).1.rooms = s.rooms ∧
    (handleMessage s now cid m).1.userSessions = s.userSessions
  cases hc : OMap.find? s.clients cid with
  | none =>
      have hnone : handleMessage s now cid m = (s, []) := by
        unfold handleMessage
        rw [hc]
      rw [hnone]
      exact ⟨rfl, rfl, rfl, rfl⟩
  | some c =>
      have hsome : handleMessage s now cid m = (touchClient s cid c now, []) := by
        unfold handleMessage
        rw [hc]
        dsimp only
        rw [if_neg h1, if_neg h2, if_neg h6, if_neg h7, if_neg h5]
      rw [hsome]
      exact ⟨rfl, touch_clientIds s cid c now hc, rfl, rfl⟩

/-- Witness for C9: a `NOT_A_TYPE` message to a one-client server delivers
nothing and leaves every index unchanged. -/
theorem c9_witness :
    onRawMessage c9WitnessState 4 "A" none = (c9WitnessState, []) ∧
    (onRawMessage c9WitnessState 4 "A" (some ⟨"NOT_A_TYPE", {}⟩)).2 = [] ∧
    clientIds (onRawMessage c9WitnessState 4 "A" (some ⟨"NOT_A_TYPE", {}⟩)).1 =
      clientIds c9WitnessState ∧
    (onRawMessage c9WitnessState 4 "A" (some ⟨"NOT_A_TYPE", {}⟩)).1.rooms =
      c9WitnessState.rooms ∧
    (onRawMessage c9WitnessState 4 "A" (some ⟨"NOT_A_TYPE", {}⟩)).1.userSessions =
      c9WitnessState.userSessions :=
  c9_unknown_messages_dropped c9WitnessState 4 "A" ⟨"NOT_A_TYPE", {}⟩ (by decide)

/-! ### Claim C10: SUBSCRIBE idempotence -/

theorem OSet.add_idem (s : OSet) (x : String) : OSet.add (OSet.add s x) x = OSet.add s x :=
  OSet.add_of_mem _ _ (OSet.mem_add_self s x)

theorem mem_foldl_oadd (l : List String) (s0 : OSet) (x : String) :
    x ∈ l.foldl OSet.add s0 ↔ x ∈ s0 ∨ x ∈ l := by
  induction l generalizing s0 with
  | nil => simp
  | cons a l ih =>
      simp [List.foldl_cons, ih, OSet.mem_add]
      tauto

theorem foldl_oadd_noop (l : List String) (s0 : OSet) (h : ∀ x ∈ l, x ∈ s0) :
    l.foldl OSet.add s0 = s0 := by
  induction l with
  | nil => rfl
  | cons a l ih =>
      simp only [List.foldl_cons]
      rw [OSet.add_of_mem s0 a (h a (List.mem_cons_self a l))]
      exact ih (fun x hx => h x (List.mem_cons_of_mem _ hx))

theorem foldl_oadd_idem (l : List String) (s0 : OSet) :
    l.foldl OSet.add (l.foldl OSet.add s0) = l.foldl OSet.add s0 :=
  foldl_oadd_noop l _ (fun x hx => (mem_foldl_oadd l s0 x).2 (Or.inr hx))

theorem indexAdd_idem (cid : String) (m : OMap OSet) (key : String) :
    indexAdd cid (indexAdd cid m key) key = indexAdd cid m key := by
  unfold indexAdd
  rw [OMap.find?_set_self]
  simp only [Option.getD_some]
  rw [OSet.add_idem, OMap.set_set]

theorem indexAdd_preserves_has (cid : String) (m : OMap OSet) (key r : String)
    (h : ∃ mem, OMap.find? m r = some mem ∧ cid ∈ mem) :
    ∃ mem, OMap.find? (indexAdd cid m key) r = some mem ∧ cid ∈ mem := by
  by_cases hk : key = r
  · subst hk
    exact ⟨_, OMap.find?_set_self _ _ _, OSet.mem_add_self _ _⟩
  · obtain ⟨mem, hf, hm⟩ := h
    exact ⟨mem, (OMap.find?_set_ne _ _ _ _ hk).trans hf, hm⟩

theorem foldl_indexAdd_preserves_has (cid : String) (L : List String) (m : OMap OSet)
    (r : String) (h : ∃ mem, OMap.find? m r = some mem ∧ cid ∈ mem) :
    ∃ mem, OMap.find? (L.foldl (indexAdd cid) m) r = some mem ∧ cid ∈ mem := by
  induction L generalizing m with
  | nil => exact h
  | cons a L ih => exact ih _ (indexAdd_preserves_has cid m a r h)

theorem foldl_indexAdd_has (cid : String) (L : List String) (m : OMap OSet) (r : String)
    (hr : r ∈ L) : ∃ mem, OMap.find? (L.foldl (indexAdd cid) m) r = some mem ∧ cid ∈ mem := by
  induction L generalizing m with
  | nil => simp at hr
  | cons a L ih =>
      rcases List.mem_cons.1 hr with hr | hr
      · subst hr
        exact foldl_indexAdd_preserves_has cid L _ r
          ⟨_, OMap.find?_set_self _ _ _, OSet.mem_add_self _ _⟩
      · exact ih (indexAdd cid m a) hr

theorem indexAdd_noop (cid : String) (m : OMap OSet) (key : String)
    (h : ∃ mem, OMap.find? m key = some mem ∧ cid ∈ mem) : indexAdd cid m key = m := by
  obtain ⟨mem, hf, hm⟩ := h
  unfold indexAdd
  rw [hf]
  simp only [Option.getD_some]
  rw [OSet.add_of_mem _ _ hm]
  exact OMap.set_of_find?_eq _ _ _ hf

theorem foldl_indexAdd_noop (cid : String) (L : List String) (m : OMap OSet)
    (h : ∀ r ∈ L, ∃ mem, OMap.find? m r = some mem ∧ cid ∈ mem) :
    L.foldl (indexAdd cid) m = m := by
  induction L with
  | nil => rfl
  | cons a L ih =>
      simp only [List.foldl_cons]
      rw [indexAdd_noop cid m a (h a (List.mem_cons_self a L))]
      exact ih (fun r hr => h r (List.mem_cons_of_mem _ hr))

theorem foldl_indexAdd_idem (cid : String) (L : List String) (m : OMap OSet) :
    L.foldl (indexAdd cid) (L.foldl (indexAdd cid) m) = L.foldl (indexAdd cid) m :=
  foldl_indexAdd_noop cid L _ (fun r hr => foldl_indexAdd_has cid L m r hr)

theorem match_rooms_idem (cid : String) (ro : Option (List String)) (m1 : OMap OSet) :
    (match ro with
     | some roomIds =>
         roomIds.foldl (indexAdd cid)
           (match ro with
            | some roomIds => roomIds.foldl (indexAdd cid) m1
            | none => m1)
     | none =>
         (match ro with
          | some roomIds => roomIds.foldl (indexAdd cid) m1
          | none => m1)) =
      (match ro with
       | some roomIds => roomIds.foldl (indexAdd cid) m1
       | none => m1) := by
  cases ro with
  | none => rfl
  | some roomIds => exact foldl_indexAdd_idem cid roomIds m1

theorem subClient_lastActivity (ct : Client) (p : InPayload) :
    (subClient ct p).lastActivity = ct.lastActivity := by
  unfold subClient
  cases p.subscriptions <;> by_cases hu : strTruthy p.userId <;> simp [hu]

theorem subClient_idem (ct : Client) (p : InPayload) :
    subClient (subClient ct p) p = subClient ct p := by
  unfold subClient
  cases p.subscriptions <;> by_cases hu : strTruthy p.userId <;>
    simp [hu, foldl_oadd_idem]

theorem Client.set_lastActivity_self (ct : Client) :
    ({ ct with lastActivity := ct.lastActivity } : Client) = ct := rfl

theorem handleSubscribe_eq (t : ServerState) (cid : String) (p : InPayload) (ct : Client)
    (h : OMap.find? t.clients cid = some ct) :
    handleSubscribe t cid p =
      { t with
        clients := OMap.set t.clients cid (subClient ct p),
        userSessions :=
          if strTruthy p.userId then indexAdd cid t.userSessions (p.userId.getD "")
          else t.userSessions,
        rooms :=
          match p.rooms with
          | some roomIds => roomIds.foldl (indexAdd cid) t.rooms
          | none => t.rooms } := by
  unfold handleSubscribe
  rw [h]

/-- **C10** (confirmed): handling the same SUBSCRIBE message twice in
succession produces the same server state as handling it once — re-adding
present topics and room memberships and re-binding the same `userId` are
no-ops. -/
theorem c10_subscribe_idempotent (s : ServerState) (now : Nat) (cid : String)
    (p : InPayload) :
    (handleMessage (handleMessage s now cid ⟨"SUBSCRIBE", p⟩).1 now cid
        ⟨"SUBSCRIBE", p⟩).1 =
      (handleMessage s now cid ⟨"SUBSCRIBE", p⟩).1 := by
  cases hc : OMap.find? s.clients cid with
  | none =>
      have h1 : handleMessage s now cid ⟨"SUBSCRIBE", p⟩ = (s, []) := by
        unfold handleMessage
        rw [hc]
      simp [h1]
  | some c =>
      rw [handleMessage_subscribe s now cid p c hc]
      set s1 := touchClient s cid c now with hs1
      have hc1 : OMap.find? s1.clients cid = some { c with lastActivity := now } :=
        OMap.find?_set_self _ _ _
      rw [handleSubscribe_eq s1 cid p _ hc1]
      set c2 := subClient { c with lastActivity := now } p with hc2def
      set s2 : ServerState :=
        { s1 with
          clients := OMap.set s1.clients cid c2,
          userSessions :=
            if strTruthy p.userId then indexAdd cid s1.userSessions (p.userId.getD "")
            else s1.userSessions,
          rooms :=
            match p.rooms with
            | some roomIds => roomIds.foldl (indexAdd cid) s1.rooms
            | none => s1.rooms } with hs2
      have hfind2 : OMap.find? s2.clients cid = some c2 := by
        rw [hs2]
        exact OMap.find?_set_self _ _ _
      rw [handleMessage_subscribe s2 now cid p c2 hfind2]
      have hlast : c2.lastActivity = now := by
        rw [hc2def, subClient_lastActivity]
      have hCproj : s2.clients = OMap.set s1.clients cid c2 := by rw [hs2]
      have hUSproj : s2.userSessions =
          (if strTruthy p.userId then indexAdd cid s1.userSessions (p.userId.getD "")
           else s1.userSessions) := by rw [hs2]
      have hRproj : s2.rooms =
          (match p.rooms with
           | some roomIds => roomIds.foldl (indexAdd cid) s1.rooms
           | none => s1.rooms) := by rw [hs2]
      have hD : OMap.set s2.clients cid c2 = s2.clients := by
        rw [hCproj, OMap.set_set]
      have hA : subClient c2 p = c2 := by
        rw [hc2def, subClient_idem]
      have hB : (if strTruthy p.userId then indexAdd cid s2.userSessions (p.userId.getD "")
          else s2.userSessions) = s2.userSessions := by
        by_cases hu : strTruthy p.userId
        · rw [if_pos hu, hUSproj, if_pos hu, indexAdd_idem]
        · rw [if_neg hu]
      have hC : (match p.rooms with
          | some roomIds => roomIds.foldl (indexAdd cid) s2.rooms
          | none => s2.rooms) = s2.rooms := by
        rw [hRproj]
        exact match_rooms_idem cid p.rooms s1.rooms
      have htouch : touchClient s2 cid c2 now = s2 := by
        unfold touchClient
        have hrec : ({ c2 with lastActivity := now } : Client) = c2 := by
          rw [← hlast]
        rw [hrec, hD]
      rw [htouch, handleSubscribe_eq s2 cid p c2 hfind2]
      rw [hA, hD, hB, hC]

/-! ### Claim C4: no empty room or user-session entries -/

theorem OMap.mem_del (m : OMap α) (k : String) (e : String × α) (h : e ∈ OMap.del m k) :
    e ∈ m := by
  induction m with
  | nil => simp [OMap.del] at h
  | cons e' rest ih =>
      obtain ⟨a, b⟩ := e'
      by_cases he : a = k
      · simp [OMap.del, he] at h
        exact List.mem_cons_of_mem _ h
      · simp [OMap.del, he] at h
        rcases h with h | h
        · simp [h]
        · exact List.mem_cons_of_mem _ (ih h)

theorem noEmpty_indexAdd (cid : String) (m : OMap OSet) (key : String)
    (h : ∀ e ∈ m, e.2 ≠ []) : ∀ e ∈ indexAdd cid m key, e.2 ≠ [] := by
  intro e he
  rcases OMap.mem_set _ _ _ _ he with hm | hm
  · exact h e hm
  · rw [hm]
    exact OSet.add_ne_nil _ _

theorem noEmpty_foldl_indexAdd (cid : String) (L : List String) (m : OMap OSet)
    (h : ∀ e ∈ m, e.2 ≠ []) : ∀ e ∈ L.foldl (indexAdd cid) m, e.2 ≠ [] := by
  induction L generalizing m with
  | nil => exact h
  | cons a L ih => exact ih _ (noEmpty_indexAdd cid m a h)

theorem noEmpty_leaveRooms (cid : String) (L : List String) (m : OMap OSet)
    (h : ∀ e ∈ m, e.2 ≠ []) :
    ∀ e ∈ L.foldl
        (fun rs roomId =>
          match OMap.find? rs roomId with
          | none => rs
          | some room =>
              let room := room.erase cid
              if room = [] then OMap.del rs roomId else OMap.set rs roomId room) m,
      e.2 ≠ [] := by
  induction L generalizing m with
  | nil => exact h
  | cons a L ih =>
      refine ih _ ?_
      intro e he
      dsimp only at he
      cases hf : OMap.find? m a with
      | none =>
          rw [hf] at he
          exact h e he
      | some room =>
          rw [hf] at he
          dsimp only at he
          by_cases hemp : room.erase cid = []
          · rw [if_pos hemp] at he
            exact h e (OMap.mem_del _ _ _ he)
          · rw [if_neg hemp] at he
            rcases OMap.mem_set _ _ _ _ he with hm | hm
            · exact h e hm
            · rw [hm]
              exact hemp

theorem noEmpty_of_same (s t : ServerState) (hr : t.rooms = s.rooms)
    (hu : t.userSessions = s.userSessions) (h : noEmptyEntries s) : noEmptyEntries t := by
  unfold noEmptyEntries at h ⊢
  rw [hr, hu]
  exact h

theorem noEmpty_handleSubscribe (t : ServerState) (cid : String) (p : InPayload)
    (h : noEmptyEntries t) : noEmptyEntries (handleSubscribe t cid p) := by
  unfold handleSubscribe
  cases hc : OMap.find? t.clients cid with
  | none => exact h
  | some c =>
      constructor
      · intro e he
        cases hr : p.rooms with
        | none =>
            rw [hr] at he
            exact h.1 e he
        | some roomIds =>
            rw [hr] at he
            exact noEmpty_foldl_indexAdd cid roomIds t.rooms h.1 e he
      · intro e he
        by_cases hu : strTruthy p.userId
        · rw [if_pos hu] at he
          exact noEmpty_indexAdd cid t.userSessions _ h.2 e he
        · rw [if_neg hu] at he
          exact h.2 e he

theorem noEmpty_handleUnsubscribe (t : ServerState) (cid : String) (p : InPayload)
    (h : noEmptyEntries t) : noEmptyEntries (handleUnsubscribe t cid p) := by
  unfold handleUnsubscribe
  cases hc : OMap.find? t.clients cid with
  | none => exact h
  | some c =>
      constructor
      · intro e he
        cases hr : p.rooms with
        | none =>
            rw [hr] at he
            exact h.1 e he
        | some roomIds =>
            rw [hr] at he
            exact noEmpty_leaveRooms cid roomIds t.rooms h.1 e he
      · intro e he
        exact h.2 e he

theorem noEmpty_handleDisconnection (t : ServerState) (now : Nat) (cid : String)
    (h : noEmptyEntries t) : noEmptyEntries (handleDisconnection t now cid).1 := by
  unfold handleDisconnection
  cases hc : OMap.find? t.clients cid with
  | none => exact h
  | some c =>
      constructor
      · intro e he
        rcases List.mem_filterMap.1 he with ⟨a, _, hfa⟩
        dsimp only at hfa
        by_cases hemp : a.2.erase cid = []
        · rw [if_pos hemp] at hfa
          exact absurd hfa (by simp)
        · rw [if_neg hemp] at hfa
          have := Option.some.inj hfa
          rw [← this]
          exact hemp
      · intro e he
        dsimp only at he
        cases hu : c.userId with
        | none =>
            rw [hu] at he
            exact h.2 e he
        | some u =>
            rw [hu] at he
            dsimp only at he
            cases hf : OMap.find? t.userSessions u with
            | none =>
                rw [hf] at he
                exact h.2 e he
            | some userClients =>
                rw [hf] at he
                dsimp only at he
                by_cases hemp : userClients.erase cid = []
                · rw [if_pos hemp] at he
                  exact h.2 e (OMap.mem_del _ _ _ he)
                · rw [if_neg hemp] at he
                  rcases OMap.mem_set _ _ _ _ he with hm | hm
                  · exact h.2 e hm
                  · rw [hm]
                    exact hemp

theorem handleStateSync_state (t : ServerState) (now : Nat) (cid : String) (p : InPayload) :
    (handleStateSync t now cid p).1 = t := by
  unfold handleStateSync
  cases p.targetUsers with
  | none => rfl
  | some l =>
      dsimp only
      split <;> rfl

theorem handleEventBroadcast_state (t : ServerState) (now : Nat) (cid : String)
    (p : InPayload) : (handleEventBroadcast t now cid p).1 = t := by
  unfold handleEventBroadcast
  split <;> rfl

theorem noEmpty_handleMessage (s : ServerState) (now : Nat) (cid : String) (m : InMsg)
    (h : noEmptyEntries s) : noEmptyEntries (handleMessage s now cid m).1 := by
  unfold handleMessage
  cases hc : OMap.find? s.clients cid with
  | none => exact h
  | some c =>
      dsimp only
      have htouch : noEmptyEntries (touchClient s cid c now) :=
        noEmpty_of_same s _ rfl rfl h
      split
      · rw [handleStateSync_state]
        exact htouch
      · split
        · rw [handleEventBroadcast_state]
          exact htouch
        · split
          · exact noEmpty_handleSubscribe _ cid m.payload htouch
          · split
            · exact noEmpty_handleUnsubscribe _ cid m.payload htouch
            · split
              · unfold handleHeartbeat
                cases hc2 : OMap.find? (touchClient s cid c now).clients cid with
                | none => exact htouch
                | some c2 => exact noEmpty_of_same _ _ rfl rfl htouch
              · exact htouch

theorem noEmpty_applyOp (s : ServerState) (op : Op) (h : noEmptyEntries s) :
    noEmptyEntries (applyOp s op).1 := by
  cases op with
  | connect now cid sid wsOpen => exact noEmpty_of_same s _ rfl rfl h
  | message now cid parsed =>
      cases parsed with
      | none => exact h
      | some m => exact noEmpty_handleMessage s now cid m h
  | disconnect now cid => exact noEmpty_handleDisconnection s now cid h
  | sendTry now cid msg wf =>
      show noEmptyEntries (sendToClientTry s now cid msg wf).1
      unfold sendToClientTry
      cases hc : OMap.find? s.clients cid with
      | none => exact h
      | some c =>
          dsimp only
          split
          · split
            · exact noEmpty_handleDisconnection s now cid h
            · exact h
          · exact h
  | tick now cid =>
      show noEmptyEntries (heartbeatTick s now cid).1
      unfold heartbeatTick
      split
      · cases hc : OMap.find? s.clients cid with
        | none => exact noEmpty_of_same s _ rfl rfl h
        | some c =>
            dsimp only
            split
            · exact h
            · exact noEmpty_of_same s _ rfl rfl h
      · exact h
  | sweep now =>
      show noEmptyEntries (cleanupInactiveClients s now).1
      unfold cleanupInactiveClients
      have aux : ∀ (l : List (String × Client)) (t : ServerState) (evs : List Event),
          noEmptyEntries t →
          noEmptyEntries
            (l.foldl
              (fun acc e =>
                if now - e.2.lastActivity > inactivityTimeout then
                  let r := handleDisconnection acc.1 now e.1
                  (r.1, acc.2 ++ r.2)
                else acc) (t, evs)).1 := by
        intro l
        induction l with
        | nil => exact fun t evs ht => ht
        | cons e l ih =>
            intro t evs ht
            simp only [List.foldl_cons]
            by_cases hcond : now - e.2.lastActivity > inactivityTimeout
            · rw [if_pos hcond]
              exact ih _ _ (noEmpty_handleDisconnection t now e.1 ht)
            · rw [if_neg hcond]
              exact ih t evs ht
      exact aux s.clients s [] h

theorem run_preserves_noEmpty (ops : List Op) :
    ∀ s : ServerState, noEmptyEntries s → noEmptyEntries (run s ops) := by
  induction ops with
  | nil => exact fun s h => h
  | cons op ops ih =>
      intro s h
      exact ih _ (noEmpty_applyOp s op h)

/-- **C4** (confirmed): in every state reachable from the empty server by
any sequence of operations (connections, inbound messages including
SUBSCRIBE/UNSUBSCRIBE, disconnections, send attempts with write errors,
heartbeat ticks and sweeps), no room entry and no user-session entry has
an empty member set: entries are deleted the instant their last member
leaves. -/
theorem c4_no_empty_entries (ops : List Op) : noEmptyEntries (run initialState ops) :=
  run_preserves_noEmpty ops initialState (by decide)

/-! ### Claim C6: the inactivity sweep -/

theorem handleDisconnection_find?_ne (t : ServerState) (now : Nat) (cid d : String)
    (hne : cid ≠ d) :
    OMap.find? (handleDisconnection t now cid).1.clients d = OMap.find? t.clients d := by
  unfold handleDisconnection
  cases hc : OMap.find? t.clients cid with
  | none => rfl
  | some c => exact OMap.find?_del_ne _ _ _ hne

theorem handleDisconnection_find?_self (t : ServerState) (now : Nat) (cid : String)
    (hN : (clientIds t).Nodup) :
    OMap.find? (handleDisconnection t now cid).1.clients cid = none := by
  unfold handleDisconnection
  cases hc : OMap.find? t.clients cid with
  | none => exact hc
  | some c => exact OMap.find?_del_self _ _ hN

theorem handleDisconnection_nodup (t : ServerState) (now : Nat) (cid : String)
    (hN : (clientIds t).Nodup) : (clientIds (handleDisconnection t now cid).1).Nodup := by
  unfold handleDisconnection
  cases hc : OMap.find? t.clients cid with
  | none => exact hN
  | some c => exact OMap.nodup_keys_del _ _ hN

theorem handleDisconnection_delivers (t : ServerState) (now : Nat) (cid : String)
    (c : Client) (d : String) (cd : Client) (hc : OMap.find? t.clients cid = some c)
    (hd : OMap.find? t.clients d = some cd) (hdo : cd.wsOpen = true) (hne : d ≠ cid) :
    (d, (⟨"USER_LEAVE", .userLeave cid c.userId, now, none⟩ : OutMsg)) ∈
      (handleDisconnection t now cid).2 := by
  unfold handleDisconnection
  rw [hc]
  dsimp only
  apply mem_broadcastToAll _ _ _ d cd
  · show OMap.find? (OMap.del t.clients cid) d = some cd
    rw [OMap.find?_del_ne _ _ _ (fun h => hne h.symm)]
    exact hd
  · exact hdo
  · intro h
    exact hne (Option.some.inj h).symm

theorem sweep_events_persist (now : Nat) (l : List (String × Client)) :
    ∀ (t : ServerState) (evs : List Event) (x : Event), x ∈ evs →
      x ∈ (l.foldl
        (fun acc e =>
          if now - e.2.lastActivity > inactivityTimeout then
            let r := handleDisconnection acc.1 now e.1
            (r.1, acc.2 ++ r.2)
          else acc) (t, evs)).2 := by
  induction l with
  | nil => exact fun t evs x hx => hx
  | cons e l ih =>
      intro t evs x hx
      simp only [List.foldl_cons]
      by_cases hcond : now - e.2.lastActivity > inactivityTimeout
      · rw [if_pos hcond]
        exact ih _ _ x (List.mem_append_left _ hx)
      · rw [if_neg hcond]
        exact ih t evs x hx

theorem sweep_absent_persists (now : Nat) (l : List (String × Client)) :
    ∀ (t : ServerState) (evs : List Event) (cid : String),
      OMap.find? t.clients cid = none →
      OMap.find? (l.foldl
        (fun acc e =>
          if now - e.2.lastActivity > inactivityTimeout then
            let r := handleDisconnection acc.1 now e.1
            (r.1, acc.2 ++ r.2)
          else acc) (t, evs)).1.clients cid = none := by
  induction l with
  | nil => exact fun t evs cid h => h
  | cons e l ih =>
      intro t evs cid h
      simp only [List.foldl_cons]
      by_cases hcond : now - e.2.lastActivity > inactivityTimeout
      · rw [if_pos hcond]
        refine ih _ _ cid ?_
        show OMap.find? (handleDisconnection t now e.1).1.clients cid = none
        by_cases he : e.1 = cid
        · subst he
          unfold handleDisconnection
          rw [h]
          exact h
        · rw [handleDisconnection_find?_ne t now e.1 cid he]
          exact h
      · rw [if_neg hcond]
        exact ih t evs cid h

theorem sweep_removes (now : Nat) (l : List (String × Client)) :
    ∀ (t : ServerState) (evs : List Event),
      (clientIds t).Nodup →
      ∀ cid c, (cid, c) ∈ l → now - c.lastActivity > inactivityTimeout →
      OMap.find? (l.foldl
        (fun acc e =>
          if now - e.2.lastActivity > inactivityTimeout then
            let r := handleDisconnection acc.1 now e.1
            (r.1, acc.2 ++ r.2)
          else acc) (t, evs)).1.clients cid = none := by
  induction l with
  | nil =>
      intro t evs _ cid c hmem
      simp at hmem
  | cons e l ih =>
      intro t evs hNt cid c hmem hinact
      simp only [List.foldl_cons]
      rcases List.mem_cons.1 hmem with heq | hmem'
      · have hcond : now - e.2.lastActivity > inactivityTimeout := by
          rw [← heq]
          exact hinact
        rw [if_pos hcond]
        refine sweep_absent_persists now l _ _ cid ?_
        show OMap.find? (handleDisconnection t now e.1).1.clients cid = none
        have : e.1 = cid := by rw [← heq]
        rw [this]
        exact handleDisconnection_find?_self t now cid hNt
      · by_cases hcond : now - e.2.lastActivity > inactivityTimeout
        · rw [if_pos hcond]
          exact ih _ _ (handleDisconnection_nodup t now e.1 hNt) cid c hmem' hinact
        · rw [if_neg hcond]
          exact ih t evs hNt cid c hmem' hinact

theorem sweep_delivers (now : Nat) (l : List (String × Client)) :
    ∀ (t : ServerState) (evs : List Event),
      (clientIds t).Nodup →
      (∀ e ∈ l, OMap.find? t.clients e.1 = some e.2) →
      (l.map Prod.fst).Nodup →
      ∀ cid c, (cid, c) ∈ l → now - c.lastActivity > inactivityTimeout →
      ∀ d cd, OMap.find? t.clients d = some cd →
        ¬(now - cd.lastActivity > inactivityTimeout) → cd.wsOpen = true →
        (d, (⟨"USER_LEAVE", .userLeave cid c.userId, now, none⟩ : OutMsg)) ∈
          (l.foldl
            (fun acc e =>
              if now - e.2.lastActivity > inactivityTimeout then
                let r := handleDisconnection acc.1 now e.1
                (r.1, acc.2 ++ r.2)
              else acc) (t, evs)).2 := by
  induction l with
  | nil =>
      intro t evs _ _ _ cid c hmem
      simp at hmem
  | cons e l ih =>
      intro t evs hNt hpres hNl cid c hmem hinact d cd hd hdact hdo
      simp only [List.foldl_cons]
      have hNl' : (l.map Prod.fst).Nodup := (List.nodup_cons.1 hNl).2
      have hheadkey : e.1 ∉ l.map Prod.fst := (List.nodup_cons.1 hNl).1
      rcases List.mem_cons.1 hmem with heq | hmem'
      · have hcond : now - e.2.lastActivity > inactivityTimeout := by
          rw [← heq]
          exact hinact
        rw [if_pos hcond]
        have hkey : e.1 = cid := by rw [← heq]
        have hrec : e.2 = c := by rw [← heq]
        have hne : d ≠ cid := by
          intro hdc
          subst hdc
          rw [← hkey] at hd
          rw [hpres e (List.mem_cons_self e l)] at hd
          have hcc : c = cd := by
            rw [← hrec]
            exact Option.some.inj hd
          rw [← hcc] at hdact
          exact hdact hinact
        have hev : (d, (⟨"USER_LEAVE", .userLeave cid c.userId, now, none⟩ : OutMsg)) ∈
            (handleDisconnection t now e.1).2 := by
          rw [hkey]
          apply handleDisconnection_delivers t now cid c d cd _ hd hdo hne
          rw [← hkey, ← hrec]
          exact hpres e (List.mem_cons_self e l)
        exact sweep_events_persist now l _ _ _ (List.mem_append_right _ hev)
      · by_cases hcond : now - e.2.lastActivity > inactivityTimeout
        · rw [if_pos hcond]
          have hkeyne : ∀ k ∈ l.map Prod.fst, e.1 ≠ k := by
            intro k hk hek
            exact hheadkey (hek ▸ hk)
          have hdne : e.1 ≠ d := by
            intro hed
            have h1 := hpres e (List.mem_cons_self e l)
            rw [hed, hd] at h1
            have h2 : e.2 = cd := (Option.some.inj h1).symm
            rw [h2] at hcond
            exact hdact hcond
          refine ih _ _ (handleDisconnection_nodup t now e.1 hNt) ?_ hNl' cid c hmem'
            hinact d cd ?_ hdact hdo
          · intro e' he'
            rw [handleDisconnection_find?_ne t now e.1 e'.1
              (hkeyne e'.1 (List.mem_map_of_mem Prod.fst he'))]
            exact hpres e' (List.mem_cons_of_mem _ he')
          · rw [handleDisconnection_find?_ne t now e.1 d hdne]
            exact hd
        · rw [if_neg hcond]
          exact ih t evs hNt (fun e' he' => hpres e' (List.mem_cons_of_mem _ he')) hNl'
            cid c hmem' hinact d cd hd hdact hdo

/-- **C6** (confirmed): when the sweep runs at time `now` on a
duplicate-free registry, every connection whose last activity is more
than the 5-minute timeout old is removed, and a USER_LEAVE carrying its
connection identifier and user identifier is delivered to every
remaining (still-active, open) connection. -/
theorem c6_sweep_evicts (s : ServerState) (now : Nat) (hN : (clientIds s).Nodup) :
    ∀ cid c, OMap.find? s.clients cid = some c →
      now - c.lastActivity > inactivityTimeout →
      OMap.find? (cleanupInactiveClients s now).1.clients cid = none ∧
      ∀ d cd, OMap.find? s.clients d = some cd →
        ¬(now - cd.lastActivity > inactivityTimeout) → cd.wsOpen = true →
        (d, (⟨"USER_LEAVE", .userLeave cid c.userId, now, none⟩ : OutMsg)) ∈
          (cleanupInactiveClients s now).2 := by
  intro cid c hc hinact
  have hpres : ∀ e ∈ s.clients, OMap.find? s.clients e.1 = some e.2 :=
    fun e he => OMap.find?_of_mem_nodup s.clients e hN he
  have hmem : (cid, c) ∈ s.clients := OMap.find?_mem _ _ _ hc
  constructor
  · show OMap.find? (s.clients.foldl _ (s, [])).1.clients cid = none
    exact sweep_removes now s.clients s [] hN cid c hmem hinact
  · intro d cd hd hdact hdo
    exact sweep_delivers now s.clients s [] hN hpres hN cid c hmem hinact d cd hd hdact hdo

/-- Witness for C6: in `c6WitnessState` (`A` idle since time 0, `B`
active at 400000, both open), the sweep at 400001 removes `A` and
delivers `A`'s USER_LEAVE to `B`. -/
theorem c6_witness :
    OMap.find? (cleanupInactiveClients c6WitnessState 400001).1.clients "A" = none ∧
    ∀ d cd, OMap.find? c6WitnessState.clients d = some cd →
      ¬(400001 - cd.lastActivity > inactivityTimeout) → cd.wsOpen = true →
      (d, (⟨"USER_LEAVE", .userLeave "A" none, 400001, none⟩ : OutMsg)) ∈
        (cleanupInactiveClients c6WitnessState 400001).2 :=
  c6_sweep_evicts c6WitnessState 400001 (by decide) "A" ⟨none, "sa", 0, 0, [], true⟩
    (by decide) (by decide)

end Realtime
